import Mathlib

/-!
Verification of the GEO site-analysis core (`server.js`).

This file shallowly embeds the crawl-and-score pipeline of the repository:
the per-page check battery (`runAllChecks` and the 19 individual check
functions), the link extractor (`findMenuLinks`), the schema extractor
(`getSchemaTypes`), the result aggregator (`processResults`) and the crawl
orchestrator (`crawlSite`).

Platform collaborators are modelled as follows:
* the WHATWG `URL` class is modelled by `parseURL` / `URLRec` below, a
  simplified but executable parser covering scheme://host:port/path?query#hash
  URLs, relative resolution against a base, and `about:blank`-style opaque
  URLs (no percent-decoding, no default-port elision, no dot-segment
  normalization);
* the DOM supplied by JSDOM is modelled by `Node` (a first-child /
  next-sibling tree) together with a CSS-selector engine covering exactly
  the selector features the source uses (type selectors, `[a]`, `[a="v"]`,
  `[a*="v"]`, descendant combinator, comma lists);
* `JSON.parse` is modelled by `jparse`, a fuel-bounded JSON parser
  (numbers are truncated to their integer part, which downstream code only
  ever inspects for truthiness);
* the fetcher (`fetchHtml`) and the HTML parser (`new JSDOM(html)`) are
  abstract function parameters of `crawlSite`, as the spec treats them as
  external collaborators.

JavaScript `Math.round` on non-negative values is `round` on rationals
(half-integers round up, matching Mathlib's `round`).
-/

namespace GEO

/-! ### Character and string utilities (JS string/regex primitives) -/

/-- Characters of a string, for structural processing. -/
def chars (s : String) : List Char := s.data

/-- List-based startsWith, modelling JS `String.prototype.startsWith`. -/
def listStarts : List Char → List Char → Bool
  | _, [] => true
  | [], _ :: _ => false
  | c :: cs, p :: ps => c == p && listStarts cs ps

/-- JS `a.startsWith(b)`. -/
def strStarts (s pat : String) : Bool := listStarts (chars s) (chars pat)

/-- List-based substring containment. -/
def listContainsSub : List Char → List Char → Bool
  | h, p => listStarts h p ||
      match h with
      | [] => false
      | _ :: t => listContainsSub t p

/-- JS `a.includes(b)` (case-sensitive substring test). -/
def containsStr (s pat : String) : Bool := listContainsSub (chars s) (chars pat)

/-- ASCII lower-casing, modelling `String.prototype.toLowerCase` on the
ASCII fragment the source's patterns use. -/
def lowerStr (s : String) : String := ⟨(chars s).map Char.toLower⟩

/-- Case-insensitive substring test, modelling a `/pat/i.test(text)` regex
whose pattern is a literal phrase. -/
def subLC (s pat : String) : Bool := containsStr (lowerStr s) (lowerStr pat)

/-- Case-insensitive test against an alternation of literal phrases,
modelling `/p1|p2|.../i.test(text)`. -/
def anyPhrase (s : String) (pats : List String) : Bool := pats.any (subLC s)

/-- JS whitespace test for `trim` (ASCII fragment). -/
def isWsCh (c : Char) : Bool := c == ' ' || c == '\t' || c == '\n' || c == '\r'

/-- JS `String.prototype.trim`. -/
def trimStr (s : String) : String :=
  ⟨(((chars s).dropWhile isWsCh).reverse.dropWhile isWsCh).reverse⟩

/-- Word character of the JS regex class `\w`. -/
def isWordCh (c : Char) : Bool := c.isAlpha || c.isDigit || c == '_'

/-- Maximal runs of characters satisfying `p`, fuel-bounded (fuel is the
input length, which always suffices). Models the matches of a global
regex `X+` (with word boundaries) over the input. -/
def runsAux (p : Char → Bool) : Nat → List Char → List (List Char)
  | 0, _ => []
  | fuel + 1, cs =>
      let cs1 := cs.dropWhile (fun c => !p c)
      match cs1.takeWhile p, cs1.dropWhile p with
      | [], _ => []
      | run, rest => run :: runsAux p fuel rest

/-- The maximal `\w+` runs of a string: the matches of `/\b\w+\b/g`. -/
def wordRuns (s : String) : List (List Char) :=
  runsAux isWordCh (chars s).length (chars s)

/-- Number of matches of `/\b\w+\b/g`, the word count of `checkReadability`. -/
def countWords (s : String) : Nat := (wordRuns s).length

/-- Sentence terminator character class `[.!?]`. -/
def isTermCh (c : Char) : Bool := c == '.' || c == '!' || c == '?'

/-- Counts matches of `/[^.!?]+[.!?]+/g`: one match per maximal
non-terminator run that is immediately followed by a terminator. The
Boolean flag records whether a non-terminator has been seen since the last
counted match. -/
def countSentAux : List Char → Bool → Nat
  | [], _ => 0
  | c :: cs, pending =>
      if isTermCh c then (if pending then 1 else 0) + countSentAux cs false
      else countSentAux cs true

/-- Number of matches of `/[^.!?]+[.!?]+/g`, the sentence count of
`checkReadability`. -/
def countSentences (s : String) : Nat := countSentAux (chars s) false

/-- Count of whole-word `you`/`your` occurrences, the matches of
`/\byou\b|\byour\b/gi`: maximal word runs whose lower-casing is exactly
`you` or `your`. -/
def countPronouns (s : String) : Nat :=
  ((wordRuns s).filter (fun r =>
    r.map Char.toLower == chars "you" || r.map Char.toLower == chars "your")).length

/-! ### The URL platform collaborator (`new URL(input, base)`) -/

/-- Parsed URL record. `opq` marks an opaque-path URL such as
`about:blank` (no authority); relative references do not resolve against
an opaque base. The port is kept as its digit string. -/
structure URLRec where
  scheme : String
  host : String
  port : Option String
  path : String
  query : Option String
  hash : Option String
  opq : Bool
  deriving DecidableEq

/-- Scheme characters after the first (ALPHA / DIGIT / `+` / `-` / `.`). -/
def isSchemeCh (c : Char) : Bool := c.isAlpha || c.isDigit || c == '+' || c == '-' || c == '.'

/-- Split `cs` at the first `?`: the path part and the optional query. -/
def splitQuery (cs : List Char) : List Char × Option String :=
  match cs.dropWhile (· ≠ '?') with
  | [] => (cs.takeWhile (· ≠ '?'), none)
  | _ :: qs => (cs.takeWhile (· ≠ '?'), some ⟨qs⟩)

/-- Splits a leading `scheme:` off `body`, if present. -/
def schemeSplit (body : List Char) : Option (List Char × List Char) :=
  match body.takeWhile isSchemeCh, body.drop (body.takeWhile isSchemeCh).length with
  | c :: _, ':' :: rest => if c.isAlpha then some (body.takeWhile isSchemeCh, rest) else none
  | _, _ => none

/-- The authority part: everything after `//` up to the first `/` or
`?`. -/
def authOf (after : List Char) : List Char :=
  after.takeWhile (fun c => c ≠ '/' && c ≠ '?')

/-- What follows the authority (path, query). -/
def authTail (after : List Char) : List Char :=
  after.dropWhile (fun c => c ≠ '/' && c ≠ '?')

/-- The host inside an authority: everything before a `:`. -/
def hostOf (auth : List Char) : List Char := auth.takeWhile (· ≠ ':')

/-- The port digits of an authority: `some none` when no port is given,
`none` (a parse error) when a port is present but not all digits. -/
def parsePort (auth : List Char) : Option (Option String) :=
  match auth.dropWhile (· ≠ ':') with
  | [] => some none
  | _ :: ds =>
      if ds.isEmpty then some none
      else if ds.all Char.isDigit then some (some ⟨ds⟩) else none

/-- Parses an absolute URL from its scheme, the part after the colon, and
the already-split fragment. Fails (like the `URL` constructor throwing) on
an empty host or a non-numeric port. -/
def parseAbsolute (sch rest : List Char) (fr : Option String) : Option URLRec :=
  match rest with
  | '/' :: '/' :: after =>
      if (hostOf (authOf after)).isEmpty then none
      else
        match parsePort (authOf after) with
        | none => none
        | some port =>
            some ⟨⟨sch⟩, ⟨hostOf (authOf after)⟩, port,
              (if (splitQuery (authTail after)).1.isEmpty then "/"
               else ⟨(splitQuery (authTail after)).1⟩),
              (splitQuery (authTail after)).2, fr, false⟩
  | _ =>
      some ⟨⟨sch⟩, "", none, ⟨(splitQuery rest).1⟩, (splitQuery rest).2, fr, true⟩

/-- The directory part of a path: everything up to and including the last
slash. -/
def dirOf (p : String) : String := ⟨((chars p).reverse.dropWhile (· ≠ '/')).reverse⟩

/-- The fragment of a URL string: what follows the first `#`, if any. -/
def fragSplit (cs : List Char) : Option String :=
  match cs.dropWhile (· ≠ '#') with
  | [] => none
  | _ :: t => some ⟨t⟩

/-- `parseURL` on the fragment-free body and the already-split
fragment. -/
def parseURLCore (body : List Char) (fr : Option String) (base : Option URLRec) :
    Option URLRec :=
  match schemeSplit body with
  | some (sch, rest) => parseAbsolute sch rest fr
  | none =>
      match base with
      | none => none
      | some b =>
          if b.opq then none
          else
            match body with
            | [] => some { b with hash := fr }
            | '/' :: '/' :: _ => parseAbsolute (chars b.scheme) body fr
            | '/' :: _ =>
                some { b with
                        path := ⟨(splitQuery body).1⟩,
                        query := (splitQuery body).2,
                        hash := fr }
            | _ =>
                some { b with
                        path := dirOf b.path ++ ⟨(splitQuery body).1⟩,
                        query := (splitQuery body).2,
                        hash := fr }

/-- Model of `new URL(input, base)`: returns `none` where the constructor
would throw. The fragment is split off first, so no component of the
result ever contains `#`. -/
def parseURL (input : String) (base : Option URLRec) : Option URLRec :=
  parseURLCore ((chars input).takeWhile (· ≠ '#')) (fragSplit (chars input)) base

/-- Port serialization (`:` + digits). -/
def portSer : Option String → String
  | none => ""
  | some p => ":" ++ p

/-- Optional-part serialization with a leading marker character. -/
def optSer (mark : String) : Option String → String
  | none => ""
  | some q => mark ++ q

/-- `URL.prototype.origin` (opaque URLs have the serialized origin
`"null"`). -/
def URLRec.origin (u : URLRec) : String :=
  if u.opq then "null" else u.scheme ++ "://" ++ u.host ++ portSer u.port

/-- `URL.prototype.href`: the serialization of the URL. -/
def URLRec.href (u : URLRec) : String :=
  if u.opq then u.scheme ++ ":" ++ u.path ++ optSer "?" u.query ++ optSer "#" u.hash
  else u.scheme ++ "://" ++ u.host ++ portSer u.port ++ u.path
        ++ optSer "?" u.query ++ optSer "#" u.hash

/-- `URL.prototype.hostname`. -/
def URLRec.hostname (u : URLRec) : String := u.host

/-- `urlObject.hash = ''`: clearing the fragment. -/
def URLRec.clearHash (u : URLRec) : URLRec := { u with hash := none }

/-- A string free of the fragment marker `#`. -/
def strNoHash (s : String) : Prop := '#' ∉ chars s

/-- All non-fragment components of a URL are free of `#` — an invariant
of every `parseURL` result, since the fragment is split off before any
component is read. -/
def URLRec.componentsNoHash (u : URLRec) : Prop :=
  strNoHash u.scheme ∧ strNoHash u.host ∧ (∀ p, u.port = some p → strNoHash p) ∧
    strNoHash u.path ∧ (∀ q, u.query = some q → strNoHash q)

example : (parseURL "https://example.com" none).map URLRec.href = some "https://example.com/" := by
  decide
example : (parseURL "https://example.com/a/b?x=1#frag" none).map URLRec.href =
    some "https://example.com/a/b?x=1#frag" := by decide
example : (parseURL "https://example.com:8080/p" none).map URLRec.origin =
    some "https://example.com:8080" := by decide
example : (parseURL "about:blank" none).map URLRec.hostname = some "" := by decide
example : parseURL "no url" none = none := by decide
example :
    (parseURL "/a" (parseURL "https://ex.com/" none)).map URLRec.href =
      some "https://ex.com/a" := by decide
example :
    (parseURL "b" (parseURL "https://ex.com/dir/x" none)).map URLRec.href =
      some "https://ex.com/dir/b" := by decide
example : parseURL "page" (parseURL "about:blank" none) = none := by decide

/-! ### The DOM collaborator (JSDOM documents and CSS selectors) -/

/-- Attribute list of an element. -/
abbrev AttrList := List (String × String)

/-- DOM tree in first-child / next-sibling form: `elem tag attrs child sib`
is an element whose subtree is `child` and whose following siblings are
`sib`; `text s sib` is a text node. -/
inductive Node where
  | nil : Node
  | text (s : String) (sib : Node) : Node
  | elem (tag : String) (attrs : AttrList) (child : Node) (sib : Node) : Node
  deriving DecidableEq

/-- A matched element handle: its tag, attributes and subtree. -/
structure ElemH where
  tag : String
  attrs : AttrList
  child : Node
  deriving DecidableEq

/-- A parsed document: its base URI and root forest. A `JSDOM` constructed
without a `url` option (as `crawlSite` does) has base URI `about:blank`. -/
structure Doc where
  baseURI : String
  root : Node

/-- `getAttribute`: first attribute with the given name, if any. -/
def getAttr (attrs : AttrList) (name : String) : Option String :=
  (attrs.find? (fun p => p.1 == name)).map (·.2)

/-- `textContent` of a forest: concatenation of all text descendants in
document order. -/
def forestText : Node → String
  | .nil => ""
  | .text s sib => s ++ forestText sib
  | .elem _ _ child sib => forestText child ++ forestText sib

/-- `textContent` of an element handle. -/
def ElemH.textContent (e : ElemH) : String := forestText e.child

/-- An attribute test of a simple selector. -/
inductive AttrTest where
  | present (a : String)
  | exact (a v : String)
  | substr (a v : String)
  deriving DecidableEq

/-- A compound selector: an optional type test plus attribute tests. -/
structure SimpleSel where
  tag : Option String
  tests : List AttrTest
  deriving DecidableEq

/-- A complex selector `a1 a2 ... target` built with descendant
combinators: `ancs` lists the ancestor compounds outermost-first. -/
structure ComplexSel where
  ancs : List SimpleSel
  target : SimpleSel
  deriving DecidableEq

/-- Does an element satisfy one attribute test? -/
def attrHolds (attrs : AttrList) : AttrTest → Bool
  | .present a => (getAttr attrs a).isSome
  | .exact a v => getAttr attrs a == some v
  | .substr a v =>
      match getAttr attrs a with
      | some w => containsStr w v
      | none => false

/-- Does an element satisfy a compound selector? -/
def simpleHolds (t : String) (attrs : AttrList) (s : SimpleSel) : Bool :=
  (match s.tag with
   | none => true
   | some tg => tg == t) && s.tests.all (attrHolds attrs)

/-- Does the ancestor chain (outermost-first) contain, in order, elements
matching the given compounds? Greedy scan; correct for existence of an
order-preserving embedding. -/
def ancsMatch : List (String × AttrList) → List SimpleSel → Bool
  | _, [] => true
  | [], _ :: _ => false
  | e :: es, s :: ss =>
      if simpleHolds e.1 e.2 s then ancsMatch es ss else ancsMatch es (s :: ss)

/-- Does an element with the given ancestor chain match a complex
selector? -/
def complexHolds (anc : List (String × AttrList)) (t : String) (attrs : AttrList)
    (sel : ComplexSel) : Bool :=
  simpleHolds t attrs sel.target && ancsMatch anc sel.ancs

/-- `querySelectorAll` traversal: document-order (preorder) collection of
the elements matching any selector of the comma list. `anc` is the chain
of ancestors of the current forest, outermost-first. -/
def qsaGo (sels : List ComplexSel) (anc : List (String × AttrList)) : Node → List ElemH
  | .nil => []
  | .text _ sib => qsaGo sels anc sib
  | .elem t a c sib =>
      (if sels.any (complexHolds anc t a) then [⟨t, a, c⟩] else [])
        ++ qsaGo sels (anc ++ [(t, a)]) c ++ qsaGo sels anc sib

/-- `doc.querySelectorAll(selectors)`. -/
def qsaDoc (doc : Doc) (sels : List ComplexSel) : List ElemH :=
  qsaGo sels [] doc.root

/-- `doc.querySelector(selectors)`: first match in document order. -/
def querySelector (doc : Doc) (sels : List ComplexSel) : Option ElemH :=
  (qsaDoc doc sels).head?

/-- First element with the given tag, in document order (used for
`doc.body`). -/
def findElem (tag : String) : Node → Option ElemH
  | .nil => none
  | .text _ sib => findElem tag sib
  | .elem t a c sib =>
      if t == tag then some ⟨t, a, c⟩ else
        match findElem tag c with
        | some e => some e
        | none => findElem tag sib

/-- `doc.body.textContent || ""`. -/
def docBodyText (doc : Doc) : String :=
  match findElem "body" doc.root with
  | some e => e.textContent
  | none => ""

/-- Plain type selector. -/
def tagSel (t : String) : ComplexSel := ⟨[], ⟨some t, []⟩⟩

/-- Selector `title`. -/
def selTitle : ComplexSel := tagSel "title"
/-- Selector `meta[name="description"]`. -/
def selMetaDescription : ComplexSel := ⟨[], ⟨some "meta", [.exact "name" "description"]⟩⟩
/-- Selector `h1`. -/
def selH1 : ComplexSel := tagSel "h1"
/-- Selector `meta[name="viewport"]`. -/
def selViewport : ComplexSel := ⟨[], ⟨some "meta", [.exact "name" "viewport"]⟩⟩
/-- Selector `a[href]`. -/
def selAHref : ComplexSel := ⟨[], ⟨some "a", [.present "href"]⟩⟩
/-- Selector `img`. -/
def selImg : ComplexSel := tagSel "img"
/-- Selector `ul`. -/
def selUl : ComplexSel := tagSel "ul"
/-- Selector `ol`. -/
def selOl : ComplexSel := tagSel "ol"
/-- Selector `a[href*="author/"]`. -/
def selAuthorHref : ComplexSel := ⟨[], ⟨some "a", [.substr "href" "author/"]⟩⟩
/-- Selector `a[rel="author"]`. -/
def selAuthorRel : ComplexSel := ⟨[], ⟨some "a", [.exact "rel" "author"]⟩⟩
/-- Selector `meta[property*="time"]`. -/
def selMetaPropTime : ComplexSel := ⟨[], ⟨some "meta", [.substr "property" "time"]⟩⟩
/-- Selector `a[href*="contact"]`. -/
def selContactHref : ComplexSel := ⟨[], ⟨some "a", [.substr "href" "contact"]⟩⟩
/-- Selector `a[href*="about"]`. -/
def selAboutHref : ComplexSel := ⟨[], ⟨some "a", [.substr "href" "about"]⟩⟩
/-- Selector `script[type="application/ld+json"]`. -/
def selLdJson : ComplexSel := ⟨[], ⟨some "script", [.exact "type" "application/ld+json"]⟩⟩
/-- Selector `h2`. -/
def selH2 : ComplexSel := tagSel "h2"
/-- Selector `h3`. -/
def selH3 : ComplexSel := tagSel "h3"
/-- Selector `table`. -/
def selTable : ComplexSel := tagSel "table"
/-- Selector `iframe`. -/
def selIframe : ComplexSel := tagSel "iframe"
/-- Selector `p a`. -/
def selPA : ComplexSel := ⟨[⟨some "p", []⟩], ⟨some "a", []⟩⟩

/-- Selector `nav a` (first member of the nav-link selector list). -/
def selNavA : ComplexSel := ⟨[⟨some "nav", []⟩], ⟨some "a", []⟩⟩
/-- Selector `[id*="nav"] a`. -/
def selIdNavA : ComplexSel := ⟨[⟨none, [.substr "id" "nav"]⟩], ⟨some "a", []⟩⟩
/-- Selector `[id*="menu"] a`. -/
def selIdMenuA : ComplexSel := ⟨[⟨none, [.substr "id" "menu"]⟩], ⟨some "a", []⟩⟩
/-- Selector `[class*="nav"] a`. -/
def selClsNavA : ComplexSel := ⟨[⟨none, [.substr "class" "nav"]⟩], ⟨some "a", []⟩⟩
/-- Selector `[class*="menu"] a`. -/
def selClsMenuA : ComplexSel := ⟨[⟨none, [.substr "class" "menu"]⟩], ⟨some "a", []⟩⟩

/-- The source's `navLinkSelectors` string
`nav a, [id*="nav"] a, [id*="menu"] a, [class*="nav"] a, [class*="menu"] a`
as a comma list. -/
def navLinkSelectors : List ComplexSel :=
  [selNavA, selIdNavA, selIdMenuA, selClsNavA, selClsMenuA]

/-- Resolution of a reflected URL property (`a.href`, `img.src`): the raw
attribute is parsed against the document's base URI; per the HTML
standard, if parsing fails the getter returns the raw attribute content. -/
def resolveURLProp (doc : Doc) (raw : String) : String :=
  match parseURL raw (parseURL doc.baseURI none) with
  | some u => u.href
  | none => raw

/-- The `href` IDL property of an anchor (empty string when the attribute
is absent). -/
def anchorHref (doc : Doc) (e : ElemH) : String :=
  match getAttr e.attrs "href" with
  | none => ""
  | some raw => resolveURLProp doc raw

/-- The `src` IDL property of an image. -/
def imgSrc (doc : Doc) (e : ElemH) : String :=
  match getAttr e.attrs "src" with
  | none => ""
  | some raw => resolveURLProp doc raw

/-- The `alt` IDL property of an image (reflects the attribute, default
empty). -/
def imgAlt (e : ElemH) : String := (getAttr e.attrs "alt").getD ""

/-- The `content` IDL property of a meta element. -/
def metaContent (e : ElemH) : String := (getAttr e.attrs "content").getD ""

/-! ### The JSON.parse collaborator -/

/-- JSON values. Numbers are truncated to their integer part: downstream
code (`getSchemaTypes` and the schema checks) only tests values for
truthiness or compares them with string literals. -/
inductive JsonVal where
  | jnull : JsonVal
  | jbool (b : Bool) : JsonVal
  | jnum (n : Int) : JsonVal
  | jstr (s : String) : JsonVal
  | jarr (xs : List JsonVal) : JsonVal
  | jobj (fields : List (String × JsonVal)) : JsonVal

/-- JSON whitespace skipping. -/
def skipWs (cs : List Char) : List Char :=
  cs.dropWhile (fun c => c == ' ' || c == '\n' || c == '\t' || c == '\r')

/-- Scans a JSON string body after the opening quote, handling `\"` and
`\\` escapes (other escaped characters are kept verbatim). Returns the
string and the rest after the closing quote. -/
def scanStr : List Char → Option (List Char × List Char)
  | [] => none
  | '"' :: r => some ([], r)
  | '\\' :: c :: r =>
      match scanStr r with
      | some (s, rest) =>
          let d := if c = 'n' then '\n' else if c = 't' then '\t' else if c = 'r' then '\r' else c
          some (d :: s, rest)
      | none => none
  | c :: r =>
      match scanStr r with
      | some (s, rest) => some (c :: s, rest)
      | none => none

/-- Digits to a natural number. -/
def digitsToNat (ds : List Char) : Nat :=
  ds.foldl (fun a c => a * 10 + (c.toNat - '0'.toNat)) 0

/-- Scans a JSON number, keeping the integer part and consuming any
fraction/exponent. -/
def scanNum (cs : List Char) : Option (Int × List Char) :=
  let (neg, cs1) :=
    match cs with
    | '-' :: r => (true, r)
    | _ => (false, cs)
  let ds := cs1.takeWhile Char.isDigit
  if ds.isEmpty then none
  else
    let rest0 := cs1.dropWhile Char.isDigit
    let rest1 :=
      match rest0 with
      | '.' :: r => r.dropWhile Char.isDigit
      | _ => rest0
    let rest2 :=
      match rest1 with
      | 'e' :: r => (r.dropWhile (fun c => c == '+' || c == '-')).dropWhile Char.isDigit
      | 'E' :: r => (r.dropWhile (fun c => c == '+' || c == '-')).dropWhile Char.isDigit
      | _ => rest1
    let n : Int := Int.ofNat (digitsToNat ds)
    some ((if neg then -n else n), rest2)

/-- Parser modes: a value, the rest of an array, or the rest of an
object. -/
inductive JMode where
  | val : JMode
  | arrRest (acc : List JsonVal) : JMode
  | objRest (acc : List (String × JsonVal)) : JMode

/-- Fuel-bounded JSON parser (single structural recursion on the fuel, so
that it evaluates by kernel reduction). Returns the parsed value and the
remaining input. -/
def jp : Nat → JMode → List Char → Option (JsonVal × List Char)
  | 0, _, _ => none
  | fuel + 1, .val, cs =>
      match skipWs cs with
      | [] => none
      | c :: rest =>
          if c = '{' then jp fuel (.objRest []) rest
          else if c = '[' then jp fuel (.arrRest []) rest
          else if c = '"' then
            match scanStr rest with
            | some (s, r) => some (.jstr ⟨s⟩, r)
            | none => none
          else if c = 't' && listStarts rest (chars "rue") then
            some (.jbool true, rest.drop 3)
          else if c = 'f' && listStarts rest (chars "alse") then
            some (.jbool false, rest.drop 4)
          else if c = 'n' && listStarts rest (chars "ull") then
            some (.jnull, rest.drop 3)
          else
            match scanNum (c :: rest) with
            | some (n, r) => some (.jnum n, r)
            | none => none
  | fuel + 1, .arrRest acc, cs =>
      match skipWs cs with
      | ']' :: r => some (.jarr acc, r)
      | cs1 =>
          match jp fuel .val cs1 with
          | none => none
          | some (v, rest) =>
              match skipWs rest with
              | ',' :: r => jp fuel (.arrRest (acc ++ [v])) r
              | ']' :: r => some (.jarr (acc ++ [v]), r)
              | _ => none
  | fuel + 1, .objRest acc, cs =>
      match skipWs cs with
      | '}' :: r => some (.jobj acc, r)
      | '"' :: cs1 =>
          match scanStr cs1 with
          | none => none
          | some (k, rest) =>
              match skipWs rest with
              | ':' :: r =>
                  match jp fuel .val r with
                  | none => none
                  | some (v, rest2) =>
                      match skipWs rest2 with
                      | ',' :: r2 => jp fuel (.objRest (acc ++ [(⟨k⟩, v)])) r2
                      | '}' :: r2 => some (.jobj (acc ++ [(⟨k⟩, v)]), r2)
                      | _ => none
              | _ => none
      | _ => none

/-- `JSON.parse(s)`: parses the whole string (trailing whitespace
allowed), `none` where `JSON.parse` would throw. -/
def jparse (s : String) : Option JsonVal :=
  match jp ((chars s).length * 2 + 8) .val (chars s) with
  | some (v, rest) => if (skipWs rest).isEmpty then some v else none
  | none => none

/-- Object field access `v[k]` (`none` models `undefined`). -/
def objGet (v : JsonVal) (k : String) : Option JsonVal :=
  match v with
  | .jobj fs => (fs.find? (fun p => p.1 == k)).map (·.2)
  | _ => none

/-- JS truthiness of a JSON value. -/
def jsTruthy : JsonVal → Bool
  | .jnull => false
  | .jbool b => b
  | .jnum n => n != 0
  | .jstr s => s != ""
  | .jarr _ => true
  | .jobj _ => true

/-- One-level flattening, modelling `Array.prototype.flat()`. -/
def flat1 (xs : List JsonVal) : List JsonVal :=
  xs.flatMap (fun v =>
    match v with
    | .jarr ys => ys
    | w => [w])

/-- Is the value a given string (JS `===` against a string literal)? -/
def isStrVal (v : JsonVal) (s : String) : Bool :=
  match v with
  | .jstr t => t == s
  | _ => false

/-- Shallow display of a schema-type value, for detail strings. -/
def jvalShow : JsonVal → String
  | .jstr s => s
  | .jnum n => toString n
  | .jbool true => "true"
  | .jbool false => "false"
  | .jnull => "null"
  | .jarr _ => ""
  | .jobj _ => ""

/-- `getSchemaTypes(doc)`: for every `script[type="application/ld+json"]`
block, parse its text; on failure skip the block. Take the `@graph` list
if present and truthy (a truthy non-array `@graph` makes `forEach` throw,
discarding the whole block), else the single value; collect every item's
truthy `@type`; finally flatten one level. -/
def getSchemaTypes (doc : Doc) : List JsonVal :=
  flat1 ((qsaDoc doc [selLdJson]).foldl (fun acc s =>
    match jparse s.textContent with
    | none => acc
    | some json =>
        let graphRes : Option (List JsonVal) :=
          match objGet json "@graph" with
          | some g =>
              if jsTruthy g then
                match g with
                | .jarr xs => some xs
                | _ => none
              else some [json]
          | none => some [json]
        match graphRes with
        | none => acc
        | some items =>
            acc ++ items.foldl (fun a it =>
              match objGet it "@type" with
              | some t => if jsTruthy t then a ++ [t] else a
              | none => a) []) [])

/-! ### The 19 page checks (server.js lines 208-229) -/

/-- A check function's result, `{ passed, details }`. -/
structure PassDetail where
  passed : Bool
  details : String

/-- A named check result, `{ name, ...check }`. -/
structure CheckResult where
  name : String
  passed : Bool
  details : String

/-- Tags a check function's result with its canonical name (the object
spread in `runAllChecks`). -/
def named (n : String) (r : PassDetail) : CheckResult := ⟨n, r.passed, r.details⟩

/-- `countInternalLinks(doc, url)`: anchors with an `href` whose resolved
`href` property parses to a hostname equal to the page URL's hostname; 0
if the page URL itself does not parse. -/
def countInternalLinks (doc : Doc) (url : String) : Nat :=
  match parseURL url none with
  | none => 0
  | some pu =>
      ((qsaDoc doc [selAHref]).filter (fun link =>
        match parseURL (anchorHref doc link) none with
        | some lu => lu.hostname == pu.hostname
        | none => false)).length

/-- `hasOutboundLinks(doc, url)`: some anchor resolves to a non-empty
hostname different from the page URL's hostname. -/
def hasOutboundLinks (doc : Doc) (url : String) : Bool :=
  match parseURL url none with
  | none => false
  | some pu =>
      (qsaDoc doc [selAHref]).any (fun link =>
        match parseURL (anchorHref doc link) none with
        | some lu => lu.hostname != "" && lu.hostname != pu.hostname
        | none => false)

/-- `checkTitleTag`. -/
def checkTitleTag (doc : Doc) : PassDetail :=
  let passed :=
    match querySelector doc [selTitle] with
    | some e => e.textContent != ""
    | none => false
  ⟨passed, if passed then "OK" else "No &lt;title&gt; tag found."⟩

/-- `checkMetaDescription`. -/
def checkMetaDescription (doc : Doc) : PassDetail :=
  let passed :=
    match querySelector doc [selMetaDescription] with
    | some e => metaContent e != ""
    | none => false
  ⟨passed, if passed then "OK" else "No &lt;meta name=\"description\"&gt; tag found."⟩

/-- `checkH1Heading`. -/
def checkH1Heading (doc : Doc) : PassDetail :=
  let h1s := (qsaDoc doc [selH1]).length
  let passed := h1s == 1
  ⟨passed, if passed then "OK"
    else "Found " ++ toString h1s ++ " &lt;h1&gt; tags (expected 1)."⟩

/-- `checkViewport`. -/
def checkViewport (doc : Doc) : PassDetail :=
  let passed := (querySelector doc [selViewport]).isSome
  ⟨passed, if passed then "OK" else "Missing &lt;meta name=\"viewport\"&gt; tag."⟩

/-- `checkInternalLinks`. -/
def checkInternalLinks (doc : Doc) (url : String) : PassDetail :=
  let count := countInternalLinks doc url
  let passed := count > 2
  ⟨passed, if passed then "OK"
    else "Found only " ++ toString count ++ " internal links (recommend > 2)."⟩

/-- `checkAltText`: every image has a non-empty, non-whitespace `alt`. -/
def checkAltText (doc : Doc) : PassDetail :=
  let images := qsaDoc doc [selImg]
  let missingAlt := images.filter (fun img => imgAlt img == "" || trimStr (imgAlt img) == "")
  let passed := missingAlt.isEmpty
  ⟨passed, if passed then "OK"
    else "Found " ++ toString missingAlt.length ++ " images missing alt text. e.g., "
          ++ String.intercalate ", " ((missingAlt.map (imgSrc doc)).take 2)⟩

/-- `checkLists`. -/
def checkLists (doc : Doc) : PassDetail :=
  let passed := (qsaDoc doc [selUl, selOl]).length > 0
  ⟨passed, if passed then "OK" else "No bulleted or numbered lists found."⟩

/-- The words-per-sentence score of `checkReadability`: 0 when either
regex finds nothing, else words divided by sentences. -/
def readabilityScore (text : String) : ℚ :=
  if countSentences text = 0 ∨ countWords text = 0 then 0
  else (countWords text : ℚ) / (countSentences text : ℚ)

/-- `score.toFixed(1)`. -/
def fixed1 (q : ℚ) : String :=
  let n : ℤ := round (q * 10)
  toString (n / 10) ++ "." ++ toString (n % 10)

/-- `checkReadability`: passes iff the score is strictly between 0 and
25. -/
def checkReadability (text : String) : PassDetail :=
  let score := readabilityScore text
  let passed := decide (score < 25 ∧ 0 < score)
  ⟨passed, if passed then "Good (Avg. " ++ fixed1 score ++ " words/sentence)."
    else "High (Avg. " ++ fixed1 score ++ " words/sentence). Recommend < 25."⟩

/-- `checkAuthor`. -/
def checkAuthor (doc : Doc) : PassDetail :=
  let passed := (querySelector doc [selAuthorHref, selAuthorRel]).isSome
  ⟨passed, if passed then "OK" else "No link to an author bio page found."⟩

/-- The first-hand-experience phrase list of `checkExperience`. -/
def experiencePhrases : List String :=
  ["in our test", "hands-on", "my experience", "we visited", "I found that",
   "our team reviewed", "we tested", "firsthand", "I personally", "from my experience"]

/-- `checkExperience`. -/
def checkExperience (text : String) : PassDetail :=
  let passed := anyPhrase text experiencePhrases
  ⟨passed, if passed then "OK" else "No phrases indicating first-hand experience found."⟩

/-- `checkFreshness`. -/
def checkFreshness (doc : Doc) (text : String) : PassDetail :=
  let passed := subLC text "updated" || subLC text "published"
      || (querySelector doc [selMetaPropTime]).isSome
  ⟨passed, if passed then "OK" else "No \"published\" or \"last updated\" date found."⟩

/-- `checkContact`. -/
def checkContact (doc : Doc) : PassDetail :=
  let passed := (querySelector doc [selContactHref, selAboutHref]).isSome
  ⟨passed, if passed then "OK" else "No link to a Contact or About page found."⟩

/-- `checkOutboundLinks`. -/
def checkOutboundLinks (doc : Doc) (url : String) : PassDetail :=
  let passed := hasOutboundLinks doc url
  ⟨passed, if passed then "OK" else "No links to external websites found."⟩

/-- `checkSchemaFound`. -/
def checkSchemaFound (types : List JsonVal) : PassDetail :=
  let passed := types.length > 0
  ⟨passed, if passed then "Found: " ++ String.intercalate ", " (types.map jvalShow)
    else "No Schema.org data found."⟩

/-- `checkArticleOrgSchema`. -/
def checkArticleOrgSchema (types : List JsonVal) : PassDetail :=
  let passed := types.any (isStrVal · "Article") || types.any (isStrVal · "Organization")
  ⟨passed, if passed then "OK" else "Missing essential Article or Organization schema."⟩

/-- `checkFaqHowToSchema`. -/
def checkFaqHowToSchema (types : List JsonVal) : PassDetail :=
  let passed := types.any (isStrVal · "FAQPage") || types.any (isStrVal · "HowTo")
  ⟨passed, if passed then "OK" else "Missing high-value FAQ or How-To schema."⟩

/-- The question-word list of `checkConversationalTone`. -/
def questionWords : List String :=
  ["what", "how", "why", "when", "where", "is", "can", "do", "are", "which",
   "who", "does", "should"]

/-- `checkConversationalTone`: question-style H2/H3 heading, else more
than 5 whole-word `you`/`your` occurrences. -/
def checkConversationalTone (doc : Doc) (text : String) : PassDetail :=
  let headings := qsaDoc doc [selH2, selH3]
  let hasQuestionHeadings := headings.any (fun h =>
    let headingText := lowerStr (trimStr h.textContent)
    questionWords.any (fun w => strStarts headingText w))
  if hasQuestionHeadings then ⟨true, "OK (Found question-based subheadings)."⟩
  else
    let pronounCount := countPronouns text
    if pronounCount > 5 then
      ⟨true, "OK (Found " ++ toString pronounCount ++ " second-person pronouns)."⟩
    else
      ⟨false, "No question-based subheadings or significant use of second-person pronouns (you/your) found."⟩

/-- The original-research phrase list of `checkUniqueData`. -/
def uniqueDataPhrases : List String :=
  ["our data", "our research", "we surveyed", "according to our study",
   "we analyzed", "our findings show", "in our analysis"]

/-- The embedded-visualization host list of `checkUniqueData`. -/
def vizPlatforms : List String :=
  ["tableau", "datawrapper", "sheets.google.com", "fusiontables.google.com"]

/-- `checkUniqueData`. -/
def checkUniqueData (doc : Doc) (text : String) : PassDetail :=
  if anyPhrase text uniqueDataPhrases then
    ⟨true, "OK (Found keywords indicating original research)."⟩
  else if (querySelector doc [selTable]).isSome then
    ⟨true, "OK (Found an HTML &lt;table&gt; element)."⟩
  else
    let hasEmbeddedViz := (qsaDoc doc [selIframe]).any (fun iframe =>
      let src := (getAttr iframe.attrs "src").getD ""
      vizPlatforms.any (fun platform => containsStr src platform))
    if hasEmbeddedViz then ⟨true, "OK (Found an embedded data visualization)."⟩
    else ⟨false, "No signals of original data, research, or visualizations found."⟩

/-- The citation-phrase test of `checkCitations`
(`/source:|according to:|citation:/i`). -/
def hasCitationKeywords (text : String) : Bool :=
  anyPhrase text ["source:", "according to:", "citation:"]

/-- `checkCitations`: citation keywords in the body text, or some `p a`
anchor resolving to a non-empty hostname different from the hostname of
`doc.baseURI` (note: the source compares against `doc.baseURI`, not
against the URL of the page being checked). -/
def checkCitations (doc : Doc) (text : String) : PassDetail :=
  if hasCitationKeywords text then ⟨true, "OK (Found citation keywords)."⟩
  else
    let hasParagraphLinks := (qsaDoc doc [selPA]).any (fun link =>
      match parseURL doc.baseURI none, parseURL (anchorHref doc link) none with
      | some pu, some lu => lu.hostname != "" && lu.hostname != pu.hostname
      | _, _ => false)
    if hasParagraphLinks then ⟨true, "OK (Found outbound links within paragraph text)."⟩
    else ⟨false, "No cited sources or contextual outbound links found in paragraphs."⟩

/-- `runAllChecks(doc, url)`: the fixed battery of 19 checks, in the
source's order. -/
def runAllChecks (doc : Doc) (url : String) : List CheckResult :=
  let textContent := docBodyText doc
  let schemaTypes := getSchemaTypes doc
  [ named "Title Tag" (checkTitleTag doc),
    named "Meta Description" (checkMetaDescription doc),
    named "H1 Heading" (checkH1Heading doc),
    named "Mobile-Friendly Viewport" (checkViewport doc),
    named "Internal Linking" (checkInternalLinks doc url),
    named "Image Alt Text" (checkAltText doc),
    named "Conversational Tone" (checkConversationalTone doc textContent),
    named "Clear Structure (Lists)" (checkLists doc),
    named "Readability" (checkReadability textContent),
    named "Unique Data/Insights" (checkUniqueData doc textContent),
    named "Author Byline/Bio" (checkAuthor doc),
    named "First-Hand Experience" (checkExperience textContent),
    named "Content Freshness" (checkFreshness doc textContent),
    named "Contact Information" (checkContact doc),
    named "Outbound Links" (checkOutboundLinks doc url),
    named "Cited Sources" (checkCitations doc textContent),
    named "Schema Found" (checkSchemaFound schemaTypes),
    named "Article or Org Schema" (checkArticleOrgSchema schemaTypes),
    named "FAQ or How-To Schema" (checkFaqHowToSchema schemaTypes) ]

/-- The canonical 19 check names, in emission order. -/
def canonicalCheckNames : List String :=
  ["Title Tag", "Meta Description", "H1 Heading", "Mobile-Friendly Viewport",
   "Internal Linking", "Image Alt Text", "Conversational Tone",
   "Clear Structure (Lists)", "Readability", "Unique Data/Insights",
   "Author Byline/Bio", "First-Hand Experience", "Content Freshness",
   "Contact Information", "Outbound Links", "Cited Sources", "Schema Found",
   "Article or Org Schema", "FAQ or How-To Schema"]

/-- The per-anchor body of the `findMenuLinks` loop: skip absent or
fragment-only hrefs; resolve against the start URL and strip the
fragment; keep a serialization (`cleanUrl`) that starts with the site
origin string and is not already crawled, deduplicating against `links`
(the `Set` insertion). -/
def menuLinkStep (su : URLRec) (crawledUrls : List String)
    (links : List String) (link : ElemH) : List String :=
  match getAttr link.attrs "href" with
  | none => links
  | some href =>
      if strStarts href "#" then links
      else
        match parseURL href (some su) with
        | none => links
        | some urlObject =>
            if strStarts urlObject.clearHash.href su.origin
                && !(crawledUrls.contains urlObject.clearHash.href) then
              if links.contains urlObject.clearHash.href then links
              else links ++ [urlObject.clearHash.href]
            else links

/-- `findMenuLinks(doc, startUrl, crawledUrls)`: anchors under the
navigation selector union, processed by `menuLinkStep`, preserving
first-discovery order. Returns `none` when `new URL(startUrl)` would
throw. -/
def findMenuLinks (doc : Doc) (startUrl : String) (crawledUrls : List String) :
    Option (List String) :=
  match parseURL startUrl none with
  | none => none
  | some su =>
      some ((qsaDoc doc navLinkSelectors).foldl (menuLinkStep su crawledUrls) [])

/-! ### The result aggregator (`processResults`, server.js lines 127-154) -/

/-- A page's url and its 19 check results. -/
structure PageResult where
  url : String
  checks : List CheckResult

/-- Per-check accumulator `{ passedCount, totalCount, failures }`. -/
structure CheckStats where
  passedCount : Nat
  totalCount : Nat
  failures : List (String × String)

/-- The `detailedReport` object: insertion-ordered association list from
check name to stats (JS objects with string keys preserve insertion
order). -/
abbrev Report := List (String × CheckStats)

/-- The zero accumulator a name is initialized with on first sight. -/
def emptyStats : CheckStats := ⟨0, 0, []⟩

/-- Processing one check result into a stats record: bump the total, and
either the passed count or the failure list. -/
def bumpStats (url : String) (c : CheckResult) (s : CheckStats) : CheckStats :=
  { passedCount := s.passedCount + (if c.passed then 1 else 0),
    totalCount := s.totalCount + 1,
    failures := s.failures ++ (if c.passed then [] else [(url, c.details)]) }

/-- Does the report already have an entry for this name? -/
def containsKey : Report → String → Bool
  | [], _ => false
  | e :: r, n => e.1 == n || containsKey r n

/-- The stats recorded under a name (the zero record when absent). -/
def statsFor : Report → String → CheckStats
  | [], _ => emptyStats
  | e :: r, n => if e.1 = n then e.2 else statsFor r n

/-- Processing one check result into the report: update the name's entry,
creating it first when absent. -/
def addCheck (rep : Report) (url : String) (c : CheckResult) : Report :=
  if containsKey rep c.name then
    rep.map (fun e => if e.1 = c.name then (e.1, bumpStats url c e.2) else e)
  else rep ++ [(c.name, bumpStats url c emptyStats)]

/-- The aggregated report: summary (score and per-check passed/total),
detailed per-check stats with failures, and the page count. -/
structure Summary where
  averageScore : ℤ
  checkStats : List (String × Nat × Nat)

/-- The value returned by `processResults`. -/
structure AggregateReport where
  summary : Summary
  detailedReport : Report
  pagesCrawled : Nat

/-- Processing one `(url, checkResult)` pair into the accumulator state
`(detailedReport, totalPasses, totalChecks)` — the body of the inner
`forEach` of `processResults`. -/
def stepRTC (st : Report × Nat × Nat) (uc : String × CheckResult) : Report × Nat × Nat :=
  (addCheck st.1 uc.1 uc.2,
   st.2.1 + (if uc.2.passed then 1 else 0),
   st.2.2 + 1)

/-- The two nested `forEach` loops of `processResults`, from an arbitrary
starting state. -/
def procFoldFrom (pages : List PageResult) (st : Report × Nat × Nat) : Report × Nat × Nat :=
  pages.foldl (fun st pageResult =>
    pageResult.checks.foldl (fun st checkResult => stepRTC st (pageResult.url, checkResult)) st) st

/-- The stream of `(url, checkResult)` pairs the nested loops process, in
order. -/
def checkStream (pages : List PageResult) : List (String × CheckResult) :=
  pages.flatMap (fun p => p.checks.map (fun c => (p.url, c)))

/-- The per-check bookkeeping invariant: passes plus recorded failures
account for the total. -/
def balanced (s : CheckStats) : Prop :=
  s.passedCount + s.failures.length = s.totalCount

/-- `processResults(allPageResults)`: one pass over every page's check
results accumulating the report, the total pass count and the total check
count; `averageScore = Math.round((totalPasses / totalChecks) * 100)`, 0
when no checks were run. -/
def processResults (allPageResults : List PageResult) : AggregateReport :=
  let st := procFoldFrom allPageResults (([] : Report), (0 : Nat), (0 : Nat))
  let detailedReport := st.1
  let totalPasses := st.2.1
  let totalChecks := st.2.2
  let averageScore : ℤ :=
    if 0 < totalChecks then round (((totalPasses : ℚ) / (totalChecks : ℚ)) * 100) else 0
  { summary :=
      { averageScore := averageScore,
        checkStats := detailedReport.map (fun e => (e.1, e.2.passedCount, e.2.totalCount)) },
    detailedReport := detailedReport,
    pagesCrawled := allPageResults.length }

/-- The total number of check results processed (the `totalChecks`
counter). -/
def totalChecksOf (pages : List PageResult) : Nat :=
  pages.foldl (fun a p => a + p.checks.length) 0

/-- The total number of passed check results (the `totalPasses`
counter). -/
def totalPassesOf (pages : List PageResult) : Nat :=
  pages.foldl (fun a p => a + (p.checks.filter (·.passed)).length) 0

/-! ### The crawl orchestrator (`crawlSite`, server.js lines 87-110)

`fetchHtml` and the JSDOM HTML parser are external collaborators, passed
in as functions. The loop state mirrors the mutable locals: the
`crawledUrls` set (a duplicate-free list), `allPageResults`, and — for
stating the resource-bound property — the trace of URLs passed to the
fetcher. -/

/-- The mutable state of the crawl loop. -/
structure LoopSt where
  crawled : List String
  pages : List PageResult
  fetched : List String

/-- The `for (const url of menuUrlsToCrawl)` loop: stop at 10 crawled
URLs, skip already-crawled ones, mark the URL crawled, fetch and parse
it, and record its check results; a fetch failure is absorbed and only
skips the page. -/
def crawlLoop (fetch : String → Except String String) (parse : String → Doc) :
    List String → LoopSt → LoopSt
  | [], st => st
  | url :: rest, st =>
      if st.crawled.length ≥ 10 then st
      else if st.crawled.contains url then crawlLoop fetch parse rest st
      else
        let crawled2 := st.crawled ++ [url]
        match fetch url with
        | .ok pageHtml =>
            let pageDoc := parse pageHtml
            crawlLoop fetch parse rest
              ⟨crawled2, st.pages ++ [⟨url, runAllChecks pageDoc url⟩], st.fetched ++ [url]⟩
        | .error _ =>
            crawlLoop fetch parse rest ⟨crawled2, st.pages, st.fetched ++ [url]⟩

/-- The outcome of a crawl: the result propagated to the caller, plus the
trace of fetch attempts. -/
structure CrawlOut where
  result : Except String AggregateReport
  fetched : List String

/-- `crawlSite(startUrl)`: parse the start URL (throws before anything
else when malformed), fetch and check the start page (a fetch failure
propagates), discover menu links, crawl them under the 10-page budget,
and aggregate. -/
def crawlSite (fetch : String → Except String String) (parse : String → Doc)
    (startUrl : String) : CrawlOut :=
  match parseURL startUrl none with
  | none => ⟨.error "Invalid URL", []⟩
  | some _ =>
      match fetch startUrl with
      | .error e => ⟨.error e, [startUrl]⟩
      | .ok homePageHtml =>
          let homePageDoc := parse homePageHtml
          let firstPage : PageResult := ⟨startUrl, runAllChecks homePageDoc startUrl⟩
          let menuUrlsToCrawl := (findMenuLinks homePageDoc startUrl [startUrl]).getD []
          let st := crawlLoop fetch parse menuUrlsToCrawl ⟨[startUrl], [firstPage], [startUrl]⟩
          ⟨.ok (processResults st.pages), st.fetched⟩

/-! ### Concrete fixtures used by witnesses and counterexamples -/

/-- A document whose navigation anchor points at the same host on another
port: its serialization starts with the site-origin string although its
origin differs. -/
def docPort : Doc :=
  ⟨"about:blank",
    .elem "html" []
      (.elem "body" []
        (.elem "nav" []
          (.elem "a" [("href", "https://example.com:8080/page")] .nil .nil) .nil) .nil) .nil⟩

/-- A document with a `nav a` anchor and a second anchor inside a
`class="menu"` container that no other navigation selector matches. -/
def docTiers : Doc :=
  ⟨"about:blank",
    .elem "html" []
      (.elem "body" []
        (.elem "nav" []
          (.elem "a" [("href", "/a")] .nil .nil)
          (.elem "div" [("class", "menu")]
            (.elem "a" [("href", "/b")] .nil .nil) .nil)) .nil) .nil⟩

/-- A document (parsed without a URL, hence base URI `about:blank`, as
`crawlSite` parses every page) whose only paragraph link points at the
same host as the page under check. -/
def docSameHostCitation : Doc :=
  ⟨"about:blank",
    .elem "html" []
      (.elem "body" []
        (.elem "p" []
          (.text "hello "
            (.elem "a" [("href", "https://site.com/page")] (.text "link" .nil) .nil)) .nil) .nil) .nil⟩

/-- A fetcher that always succeeds. -/
def fetchAlwaysOk : String → Except String String := fun _ => .ok ""

/-- A trivial HTML-parser collaborator. -/
def parseTrivial : String → Doc := fun _ => ⟨"about:blank", .nil⟩

/-- A page carrying one passing check result per canonical name. -/
def pageAllPass : PageResult :=
  ⟨"https://w.example/", canonicalCheckNames.map (fun n => ⟨n, true, "OK"⟩)⟩

/-! ## Theorems -/

/-- C1: for every parseable document and every URL, `runAllChecks` returns
exactly 19 results carrying exactly the canonical check names in the
canonical order (Title Tag first, FAQ or How-To Schema last), with no
check conditionally skipped. -/
theorem runAllChecks_names (doc : Doc) (url : String) :
    (runAllChecks doc url).map CheckResult.name = canonicalCheckNames ∧
      (runAllChecks doc url).length = 19 :=
  ⟨rfl, rfl⟩

/-- The pass flag of the Readability check is exactly the strict-range
test of the computed score. -/
theorem checkReadability_passed (text : String) :
    (checkReadability text).passed =
      decide (readabilityScore text < 25 ∧ 0 < readabilityScore text) := rfl

/-- C8: the Readability check passes iff both regex counts are positive
and the words-per-sentence ratio is strictly below 25 (positivity of the
ratio then being automatic); with zero detected sentences or words the
score defaults to 0 and the check fails. -/
theorem checkReadability_spec (text : String) :
    ((checkReadability text).passed = true ↔
      (0 < countWords text ∧ 0 < countSentences text ∧
        (countWords text : ℚ) / (countSentences text : ℚ) < 25)) ∧
    ((countSentences text = 0 ∨ countWords text = 0) →
      readabilityScore text = 0 ∧ (checkReadability text).passed = false) := by
  by_cases h : countSentences text = 0 ∨ countWords text = 0
  · have hs0 : readabilityScore text = 0 := by simp [readabilityScore, h]
    refine ⟨?_, fun _ => ⟨hs0, ?_⟩⟩
    · rw [checkReadability_passed, hs0]
      simp only [decide_eq_true_eq]
      constructor
      · rintro ⟨-, hlt⟩; exact absurd hlt (lt_irrefl 0)
      · rintro ⟨hw, hsent, -⟩
        rcases h with h | h <;> omega
    · rw [checkReadability_passed, hs0]
      simp
  · push_neg at h
    obtain ⟨hs, hw⟩ := h
    have hw' : (0 : ℚ) < countWords text := by exact_mod_cast Nat.pos_of_ne_zero hw
    have hs' : (0 : ℚ) < countSentences text := by exact_mod_cast Nat.pos_of_ne_zero hs
    have hsc : readabilityScore text =
        (countWords text : ℚ) / (countSentences text : ℚ) := by
      rw [readabilityScore, if_neg]
      push_neg
      exact ⟨hs, hw⟩
    refine ⟨?_, ?_⟩
    · rw [checkReadability_passed, hsc]
      simp only [decide_eq_true_eq]
      constructor
      · rintro ⟨h25, -⟩
        exact ⟨Nat.pos_of_ne_zero hw, Nat.pos_of_ne_zero hs, h25⟩
      · rintro ⟨-, -, h25⟩
        exact ⟨h25, div_pos hw' hs'⟩
    · rintro (h0 | h0)
      · exact absurd h0 hs
      · exact absurd h0 hw

/-- C8 witness: on the empty text both counts are zero, the score
defaults to 0, and the check fails. -/
theorem checkReadability_spec_witness :
    readabilityScore "" = 0 ∧ (checkReadability "").passed = false :=
  (checkReadability_spec "").2 (Or.inl rfl)

/-- C9: on a page parsed the way `crawlSite` parses it (no URL given to
JSDOM, so `doc.baseURI` is `about:blank`), the Cited Sources check passes
on a paragraph anchor whose hostname is EQUAL to the hostname of the page
being checked (`https://site.com/`), and no citation phrase is present:
the source compares the link's hostname against `doc.baseURI`'s hostname
instead of the page URL's hostname. -/
theorem checkCitations_baseURI_bug :
    (checkCitations docSameHostCitation (docBodyText docSameHostCitation)).passed = true ∧
    hasCitationKeywords (docBodyText docSameHostCitation) = false ∧
    (parseURL (anchorHref docSameHostCitation
        ⟨"a", [("href", "https://site.com/page")], .text "link" .nil⟩) none).map URLRec.hostname
      = (parseURL "https://site.com/" none).map URLRec.hostname := by
  decide

/-- C5 counterexample: with a fetcher that succeeds on every URL,
`crawlSite` still propagates an error on an unparseable start URL
(`new URL(startUrl)` runs before any fetch), so an error is NOT
equivalent to a start-page fetch failure. -/
theorem crawlSite_error_without_fetch_failure :
    (crawlSite fetchAlwaysOk parseTrivial "not a url").result.isOk = false ∧
      (fetchAlwaysOk "not a url").isOk = true :=
  ⟨rfl, rfl⟩

/-- C6 counterexample: the extractor keeps any URL whose serialization
merely starts with the site-origin string; a same-host different-port URL
is returned although its origin differs from the start page's origin. -/
theorem findMenuLinks_origin_counterexample :
    findMenuLinks docPort "https://example.com/" ["https://example.com/"] =
        some ["https://example.com:8080/page"] ∧
      (parseURL "https://example.com:8080/page" none).map URLRec.origin ≠
        (parseURL "https://example.com/" none).map URLRec.origin := by
  decide

/-- C7 counterexample: the `nav a` selector has a match (the `/a` anchor),
yet the `/b` anchor — matched by no selector except the lowest-specificity
`[class*="menu"] a` — still contributes its URL: the selector list is one
union, not first-non-empty-tier-wins. -/
theorem findMenuLinks_tier_counterexample :
    qsaDoc docTiers [selNavA] ≠ [] ∧
    (⟨"a", [("href", "/b")], .nil⟩ : ElemH) ∉ qsaDoc docTiers [selNavA] ∧
    (⟨"a", [("href", "/b")], .nil⟩ : ElemH) ∉ qsaDoc docTiers [selIdNavA] ∧
    (⟨"a", [("href", "/b")], .nil⟩ : ElemH) ∉ qsaDoc docTiers [selIdMenuA] ∧
    (⟨"a", [("href", "/b")], .nil⟩ : ElemH) ∉ qsaDoc docTiers [selClsNavA] ∧
    (⟨"a", [("href", "/b")], .nil⟩ : ElemH) ∈ qsaDoc docTiers [selClsMenuA] ∧
    findMenuLinks docTiers "https://ex.com/" ["https://ex.com/"] =
      some ["https://ex.com/a", "https://ex.com/b"] := by
  decide

/-! ### Aggregator lemmas -/

theorem balanced_emptyStats : balanced emptyStats := rfl

theorem balanced_bump {s : CheckStats} (url : String) (c : CheckResult)
    (h : balanced s) : balanced (bumpStats url c s) := by
  unfold balanced bumpStats at *
  cases hc : c.passed <;> simp <;> omega

theorem statsFor_not_contains {rep : Report} {n : String}
    (h : containsKey rep n = false) : statsFor rep n = emptyStats := by
  induction rep with
  | nil => rfl
  | cons e r ih =>
      simp only [containsKey, Bool.or_eq_false_iff] at h
      have hne : e.1 ≠ n := by simpa using h.1
      simp only [statsFor, if_neg hne]
      exact ih h.2

theorem statsFor_append (rep1 rep2 : Report) (n : String) :
    statsFor (rep1 ++ rep2) n =
      if containsKey rep1 n then statsFor rep1 n else statsFor rep2 n := by
  induction rep1 with
  | nil => simp [containsKey, statsFor]
  | cons e r ih =>
      by_cases he : e.1 = n
      · simp [statsFor, containsKey, he]
      · have hb : (e.1 == n) = false := by simpa using he
        simp [statsFor, containsKey, he, hb, ih]

theorem statsFor_mapUpdate_same (rep : Report) (n : String) (f : CheckStats → CheckStats)
    (h : containsKey rep n = true) :
    statsFor (rep.map (fun e => if e.1 = n then (e.1, f e.2) else e)) n
      = f (statsFor rep n) := by
  induction rep with
  | nil => simp [containsKey] at h
  | cons e r ih =>
      by_cases he : e.1 = n
      · simp [statsFor, he]
      · have hb : (e.1 == n) = false := by simpa using he
        simp only [containsKey, hb, Bool.false_or] at h
        simp [statsFor, he, ih h]

theorem statsFor_mapUpdate_ne (rep : Report) (m : String) (f : CheckStats → CheckStats)
    (n : String) (hne : n ≠ m) :
    statsFor (rep.map (fun e => if e.1 = m then (e.1, f e.2) else e)) n
      = statsFor rep n := by
  induction rep with
  | nil => rfl
  | cons e r ih =>
      by_cases he : e.1 = m
      · have hn : e.1 ≠ n := by rw [he]; exact fun hh => hne hh.symm
        have hmn : m ≠ n := fun hh => hne hh.symm
        simp [statsFor, he, hn, hmn, ih]
      · by_cases hen : e.1 = n
        · simp [statsFor, he, hen, hne, ih]
        · simp [statsFor, he, hen, ih]

theorem statsFor_addCheck_same (rep : Report) (url : String) (c : CheckResult) :
    statsFor (addCheck rep url c) c.name = bumpStats url c (statsFor rep c.name) := by
  unfold addCheck
  cases h : containsKey rep c.name
  · simp only [Bool.false_eq_true, if_false, statsFor_append, h]
    simp [statsFor, statsFor_not_contains h]
  · simp only [if_true, h]
    exact statsFor_mapUpdate_same rep c.name _ h

theorem statsFor_addCheck_ne (rep : Report) (url : String) (c : CheckResult)
    (n : String) (hne : n ≠ c.name) :
    statsFor (addCheck rep url c) n = statsFor rep n := by
  unfold addCheck
  cases h : containsKey rep c.name
  · simp only [Bool.false_eq_true, if_false, statsFor_append]
    cases h2 : containsKey rep n
    · have h3 : c.name ≠ n := fun hh => hne hh.symm
      simp [statsFor, h3, statsFor_not_contains h2]
    · simp [h2]
  · simp only [if_true]
    exact statsFor_mapUpdate_ne rep c.name _ n hne

theorem streamFold_total (L : List (String × CheckResult))
    (st : Report × Nat × Nat) (n : String) :
    (statsFor (L.foldl stepRTC st).1 n).totalCount
      = (statsFor st.1 n).totalCount + L.countP (fun uc => uc.2.name == n) := by
  induction L generalizing st with
  | nil => simp
  | cons uc L ih =>
      rw [List.foldl_cons, ih, List.countP_cons]
      by_cases hn : uc.2.name = n
      · have : statsFor (stepRTC st uc).1 n = bumpStats uc.1 uc.2 (statsFor st.1 n) := by
          rw [← hn]; exact statsFor_addCheck_same st.1 uc.1 uc.2
        rw [this]
        simp [bumpStats, hn]
        omega
      · have : statsFor (stepRTC st uc).1 n = statsFor st.1 n :=
          statsFor_addCheck_ne st.1 uc.1 uc.2 n (fun hh => hn hh.symm)
        have hb : (uc.2.name == n) = false := by simpa using hn
        rw [this, hb]
        simp

theorem streamFold_passes (L : List (String × CheckResult)) (st : Report × Nat × Nat) :
    (L.foldl stepRTC st).2.1 = st.2.1 + L.countP (fun uc => uc.2.passed) := by
  induction L generalizing st with
  | nil => simp
  | cons uc L ih =>
      rw [List.foldl_cons, ih, List.countP_cons]
      simp only [stepRTC]
      cases hp : uc.2.passed <;> (simp [hp]; try omega)

theorem streamFold_len (L : List (String × CheckResult)) (st : Report × Nat × Nat) :
    (L.foldl stepRTC st).2.2 = st.2.2 + L.length := by
  induction L generalizing st with
  | nil => simp
  | cons uc L ih =>
      rw [List.foldl_cons, ih]
      simp [stepRTC]
      omega

theorem streamFold_balanced (L : List (String × CheckResult))
    (st : Report × Nat × Nat) (n : String) (h : balanced (statsFor st.1 n)) :
    balanced (statsFor (L.foldl stepRTC st).1 n) := by
  induction L generalizing st with
  | nil => exact h
  | cons uc L ih =>
      rw [List.foldl_cons]
      apply ih
      by_cases hn : uc.2.name = n
      · have heq : statsFor (stepRTC st uc).1 n = bumpStats uc.1 uc.2 (statsFor st.1 n) := by
          rw [← hn]; exact statsFor_addCheck_same st.1 uc.1 uc.2
        rw [heq]
        exact balanced_bump uc.1 uc.2 h
      · have heq : statsFor (stepRTC st uc).1 n = statsFor st.1 n :=
          statsFor_addCheck_ne st.1 uc.1 uc.2 n (fun hh => hn hh.symm)
        rw [heq]
        exact h

theorem procFoldFrom_eq (pages : List PageResult) (st : Report × Nat × Nat) :
    procFoldFrom pages st = (checkStream pages).foldl stepRTC st := by
  induction pages generalizing st with
  | nil => rfl
  | cons p ps ih =>
      unfold procFoldFrom checkStream
      rw [List.flatMap_cons, List.foldl_append, List.foldl_cons, List.foldl_map]
      exact ih _

theorem checkStream_name_count (pages : List PageResult) (n : String)
    (h : ∀ p ∈ pages, (p.checks.map CheckResult.name).Perm canonicalCheckNames)
    (hn : n ∈ canonicalCheckNames) :
    (checkStream pages).countP (fun uc => uc.2.name == n) = pages.length := by
  induction pages with
  | nil => rfl
  | cons p ps ih =>
      unfold checkStream
      rw [List.flatMap_cons, List.countP_append]
      have h1 : (p.checks.map (fun c => (p.url, c))).countP (fun uc => uc.2.name == n) = 1 := by
        have e1 : (p.checks.map (fun c => (p.url, c))).countP (fun uc => uc.2.name == n)
            = p.checks.countP (fun c => c.name == n) := by
          rw [List.countP_map]; rfl
        have e2 : p.checks.countP (fun c => c.name == n)
            = (p.checks.map CheckResult.name).countP (fun x => x == n) := by
          rw [List.countP_map]; rfl
        have e4 : (p.checks.map CheckResult.name).count n = canonicalCheckNames.count n :=
          (h p (List.mem_cons_self p ps)).count_eq n
        have e5 : canonicalCheckNames.count n = 1 :=
          List.count_eq_one_of_mem (by decide) hn
        rw [e1, e2]
        exact e4.trans e5
      rw [h1]
      have h2 := ih (fun q hq => h q (List.mem_cons_of_mem p hq))
      unfold checkStream at h2
      rw [h2]
      simp [Nat.add_comm]

/-- C2: when every page carries exactly one check result per canonical
check name, the aggregate gives every canonical check a `totalCount`
equal to `pagesCrawled`, and its `passedCount` plus its number of
recorded failures equals its `totalCount`. -/
theorem processResults_count_invariant (pages : List PageResult)
    (h : ∀ p ∈ pages, (p.checks.map CheckResult.name).Perm canonicalCheckNames) :
    ∀ n ∈ canonicalCheckNames,
      (statsFor (processResults pages).detailedReport n).totalCount
          = (processResults pages).pagesCrawled ∧
        (statsFor (processResults pages).detailedReport n).passedCount
            + (statsFor (processResults pages).detailedReport n).failures.length
          = (statsFor (processResults pages).detailedReport n).totalCount := by
  intro n hn
  have hrep : (processResults pages).detailedReport
      = ((checkStream pages).foldl stepRTC (([] : Report), 0, 0)).1 := by
    unfold processResults
    rw [procFoldFrom_eq]
  have hpc : (processResults pages).pagesCrawled = pages.length := rfl
  constructor
  · rw [hrep, hpc, streamFold_total, checkStream_name_count pages n h hn]
    simp [statsFor, emptyStats]
  · rw [hrep]
    exact streamFold_balanced _ _ _ balanced_emptyStats

/-- C2 witness: a single page carrying one passing result per canonical
name; for the Title Tag check the total equals the page count and the
bookkeeping balances. -/
theorem processResults_count_invariant_witness :
    (statsFor (processResults [pageAllPass]).detailedReport "Title Tag").totalCount
        = (processResults [pageAllPass]).pagesCrawled ∧
      (statsFor (processResults [pageAllPass]).detailedReport "Title Tag").passedCount
          + (statsFor (processResults [pageAllPass]).detailedReport "Title Tag").failures.length
        = (statsFor (processResults [pageAllPass]).detailedReport "Title Tag").totalCount :=
  processResults_count_invariant [pageAllPass] (by decide) "Title Tag" (by decide)

theorem totalChecksOf_eq (pages : List PageResult) :
    totalChecksOf pages = (checkStream pages).length := by
  suffices haux : ∀ (a : Nat) (ps : List PageResult),
      ps.foldl (fun a p => a + p.checks.length) a = a + (checkStream ps).length by
    simpa [totalChecksOf] using haux 0 pages
  intro a ps
  induction ps generalizing a with
  | nil => simp [checkStream]
  | cons p ps ih =>
      simp only [List.foldl_cons, checkStream, List.flatMap_cons, List.length_append,
        List.length_map, ih]
      omega

theorem totalPassesOf_eq (pages : List PageResult) :
    totalPassesOf pages = (checkStream pages).countP (fun uc => uc.2.passed) := by
  suffices haux : ∀ (a : Nat) (ps : List PageResult),
      ps.foldl (fun a p => a + (p.checks.filter (·.passed)).length) a
        = a + (checkStream ps).countP (fun uc => uc.2.passed) by
    simpa [totalPassesOf] using haux 0 pages
  intro a ps
  induction ps generalizing a with
  | nil => simp [checkStream]
  | cons p ps ih =>
      simp only [List.foldl_cons, checkStream, List.flatMap_cons, List.countP_append, ih]
      have hf : (p.checks.filter (·.passed)).length
          = (p.checks.map (fun c => (p.url, c))).countP (fun uc => uc.2.passed) := by
        rw [List.countP_map, ← List.countP_eq_length_filter]
        rfl
      omega

theorem processResults_averageScore_eq (pages : List PageResult) :
    (processResults pages).summary.averageScore
      = if 0 < totalChecksOf pages then
          round (((totalPassesOf pages : ℚ) / (totalChecksOf pages : ℚ)) * 100)
        else 0 := by
  have hp : (procFoldFrom pages (([] : Report), 0, 0)).2.1 = totalPassesOf pages := by
    rw [procFoldFrom_eq, streamFold_passes, totalPassesOf_eq]
    simp
  have ht : (procFoldFrom pages (([] : Report), 0, 0)).2.2 = totalChecksOf pages := by
    rw [procFoldFrom_eq, streamFold_len, totalChecksOf_eq]
    simp
  rw [show (processResults pages).summary.averageScore
      = (if 0 < (procFoldFrom pages (([] : Report), 0, 0)).2.2 then
          round ((((procFoldFrom pages (([] : Report), 0, 0)).2.1 : ℚ)
            / ((procFoldFrom pages (([] : Report), 0, 0)).2.2 : ℚ)) * 100)
        else 0) from rfl, hp, ht]

/-- C3: the average score is the rounding of `100 * totalPasses /
totalChecks`, is 0 on an empty page sequence, and always lies between 0
and 100. -/
theorem processResults_averageScore_spec (pages : List PageResult) :
    (processResults pages).summary.averageScore
        = round ((100 * (totalPassesOf pages : ℚ)) / (totalChecksOf pages : ℚ)) ∧
      (pages = [] → (processResults pages).summary.averageScore = 0) ∧
      0 ≤ (processResults pages).summary.averageScore ∧
      (processResults pages).summary.averageScore ≤ 100 := by
  have hple : totalPassesOf pages ≤ totalChecksOf pages := by
    rw [totalPassesOf_eq, totalChecksOf_eq]
    exact List.countP_le_length _
  have havg := processResults_averageScore_eq pages
  refine ⟨?_, ?_, ?_, ?_⟩
  · by_cases h0 : 0 < totalChecksOf pages
    · rw [havg, if_pos h0]
      congr 1
      rw [div_mul_eq_mul_div, mul_comm]
    · have ht0 : totalChecksOf pages = 0 := by omega
      rw [havg, if_neg h0, ht0]
      simp
  · intro hnil
    subst hnil
    rfl
  · by_cases h0 : 0 < totalChecksOf pages
    · rw [havg, if_pos h0, round_eq]
      refine Int.le_floor.mpr ?_
      have hx : (0 : ℚ) ≤ ((totalPassesOf pages : ℚ) / (totalChecksOf pages : ℚ)) * 100 := by
        positivity
      push_cast
      linarith
    · rw [havg, if_neg h0]
  · by_cases h0 : 0 < totalChecksOf pages
    · rw [havg, if_pos h0, round_eq]
      have ht' : (0 : ℚ) < (totalChecksOf pages : ℚ) := by exact_mod_cast h0
      have h1 : (totalPassesOf pages : ℚ) / (totalChecksOf pages : ℚ) ≤ 1 := by
        rw [div_le_one ht']
        exact_mod_cast hple
      have hx : ((totalPassesOf pages : ℚ) / (totalChecksOf pages : ℚ)) * 100 ≤ 100 := by
        nlinarith
      have hfl : (⌊((totalPassesOf pages : ℚ) / (totalChecksOf pages : ℚ)) * 100 + 1 / 2⌋ : ℤ)
          ≤ ⌊(100 : ℚ) + 1 / 2⌋ := Int.floor_le_floor (by linarith)
      have h100 : (⌊(100 : ℚ) + 1 / 2⌋ : ℤ) = 100 := by
        rw [Int.floor_eq_iff]
        constructor <;> norm_num
      omega
    · rw [havg, if_neg h0]
      norm_num

/-- C3 witness: the empty crawl yields average score 0. -/
theorem processResults_averageScore_witness :
    (processResults []).summary.averageScore = 0 :=
  (processResults_averageScore_spec []).2.1 rfl

/-! ### Crawl orchestrator lemmas -/

theorem crawlLoop_fetched_le (fetch : String → Except String String) (parse : String → Doc)
    (urls : List String) (st : LoopSt) :
    (crawlLoop fetch parse urls st).fetched.length
      ≤ st.fetched.length + (10 - st.crawled.length) := by
  induction urls generalizing st with
  | nil => simp [crawlLoop]
  | cons url rest ih =>
      by_cases h10 : st.crawled.length ≥ 10
      · simp only [crawlLoop, if_pos h10]
        omega
      · cases hc : st.crawled.contains url
        · cases hf : fetch url with
          | ok html =>
              simp only [crawlLoop, if_neg h10, hc, hf]
              refine le_trans (ih _) ?_
              simp
              omega
          | error e =>
              simp only [crawlLoop, if_neg h10, hc, hf]
              refine le_trans (ih _) ?_
              simp
              omega
        · simp only [crawlLoop, if_neg h10, hc]
          exact ih st

/-- C4: for every fetcher, every parser and every start URL, `crawlSite`
performs at most 10 fetches in total — one for the start page and at most
9 for candidate menu pages, however many menu links are discoverable. -/
theorem crawlSite_page_budget (fetch : String → Except String String)
    (parse : String → Doc) (startUrl : String) :
    (crawlSite fetch parse startUrl).fetched.length ≤ 10 := by
  cases hp : parseURL startUrl none
  · simp [crawlSite, hp]
  · cases hf : fetch startUrl with
    | error e => simp [crawlSite, hp, hf]
    | ok homePageHtml =>
        simp only [crawlSite, hp, hf]
        refine le_trans (crawlLoop_fetched_le fetch parse _ _) ?_
        simp

theorem crawlLoop_pages_len (fetch : String → Except String String) (parse : String → Doc)
    (urls : List String) (st : LoopSt)
    (h : st.pages.length = (st.fetched.filter (fun v => (fetch v).isOk)).length) :
    (crawlLoop fetch parse urls st).pages.length
      = ((crawlLoop fetch parse urls st).fetched.filter (fun v => (fetch v).isOk)).length := by
  induction urls generalizing st with
  | nil => simpa [crawlLoop] using h
  | cons url rest ih =>
      by_cases h10 : st.crawled.length ≥ 10
      · simpa [crawlLoop, if_pos h10] using h
      · cases hc : st.crawled.contains url
        · cases hf : fetch url with
          | ok html =>
              simp only [crawlLoop, if_neg h10, hc, hf]
              refine ih _ ?_
              simp [List.filter_append, hf, Except.isOk, Except.toBool, h]
          | error e =>
              simp only [crawlLoop, if_neg h10, hc, hf]
              refine ih _ ?_
              simp [List.filter_append, hf, Except.isOk, Except.toBool, h]
        · simp only [crawlLoop, if_neg h10, hc]
          exact ih st h

/-- C5 (amended): `crawlSite` propagates an error exactly when the start
URL fails to parse or the start-page fetch fails; every secondary-page
fetch failure is absorbed, the crawl and aggregation still complete, and
`pagesCrawled` counts exactly the fetch attempts that succeeded. -/
theorem crawlSite_failure_semantics (fetch : String → Except String String)
    (parse : String → Doc) (startUrl : String) :
    ((crawlSite fetch parse startUrl).result.isOk = true ↔
        ((parseURL startUrl none).isSome ∧ (fetch startUrl).isOk = true)) ∧
      ∀ r, (crawlSite fetch parse startUrl).result = .ok r →
        r.pagesCrawled
          = ((crawlSite fetch parse startUrl).fetched.filter
              (fun v => (fetch v).isOk)).length := by
  cases hp : parseURL startUrl none
  · constructor
    · simp [crawlSite, hp, Except.isOk, Except.toBool]
    · intro r hr
      simp [crawlSite, hp] at hr
  · cases hf : fetch startUrl with
    | error e =>
        constructor
        · simp [crawlSite, hp, hf, Except.isOk, Except.toBool]
        · intro r hr
          simp [crawlSite, hp, hf] at hr
    | ok homePageHtml =>
        constructor
        · simp [crawlSite, hp, hf, Except.isOk, Except.toBool]
        · intro r hr
          simp only [crawlSite, hp, hf] at hr ⊢
          have hr2 : r = processResults (crawlLoop fetch parse
              ((findMenuLinks (parse homePageHtml) startUrl [startUrl]).getD [])
              ⟨[startUrl], [⟨startUrl, runAllChecks (parse homePageHtml) startUrl⟩],
                [startUrl]⟩).pages := by
            exact (Except.ok.injEq .. ▸ hr).symm
          subst hr2
          have hinit : ([⟨startUrl, runAllChecks (parse homePageHtml) startUrl⟩] :
              List PageResult).length
              = (([startUrl] : List String).filter (fun v => (fetch v).isOk)).length := by
            simp [hf, Except.isOk, Except.toBool]
          exact crawlLoop_pages_len fetch parse _ _ hinit

/-- C5 witness: with a parseable start URL and a fetcher that succeeds,
the crawl completes with a report. -/
theorem crawlSite_failure_semantics_witness :
    (crawlSite fetchAlwaysOk parseTrivial "https://ex.com/").result.isOk = true :=
  (crawlSite_failure_semantics fetchAlwaysOk parseTrivial "https://ex.com/").1.mpr
    ⟨by decide, rfl⟩

/-! ### URL parser fragment-freeness -/

theorem noHash_takeWhile {cs : List Char} (p : Char → Bool) (h : '#' ∉ cs) :
    '#' ∉ cs.takeWhile p :=
  fun hm => h ((List.takeWhile_sublist p).subset hm)

theorem noHash_dropWhile {cs : List Char} (p : Char → Bool) (h : '#' ∉ cs) :
    '#' ∉ cs.dropWhile p :=
  fun hm => h ((List.dropWhile_sublist p).subset hm)

theorem noHash_drop {cs : List Char} (n : Nat) (h : '#' ∉ cs) : '#' ∉ cs.drop n :=
  fun hm => h ((List.drop_sublist n cs).subset hm)

theorem noHash_of_cons {c : Char} {cs : List Char} (h : '#' ∉ c :: cs) : '#' ∉ cs :=
  fun hm => h (List.mem_cons_of_mem c hm)

theorem noHash_body (cs : List Char) : '#' ∉ cs.takeWhile (· ≠ '#') := by
  intro hm
  have := List.mem_takeWhile_imp hm
  simp at this

theorem splitQuery_noHash {cs : List Char} (h : '#' ∉ cs) :
    '#' ∉ (splitQuery cs).1 ∧ ∀ q, (splitQuery cs).2 = some q → strNoHash q := by
  unfold splitQuery
  cases hd : cs.dropWhile (· ≠ '?') with
  | nil =>
      refine ⟨noHash_takeWhile _ h, ?_⟩
      intro q hq
      simp at hq
  | cons c qs =>
      refine ⟨noHash_takeWhile _ h, ?_⟩
      intro q hq
      simp only [Option.some.injEq] at hq
      subst hq
      have h1 : '#' ∉ c :: qs := hd ▸ noHash_dropWhile _ h
      exact noHash_of_cons h1

theorem schemeSplit_noHash {body sch rest : List Char}
    (hb : '#' ∉ body) (h : schemeSplit body = some (sch, rest)) :
    '#' ∉ sch ∧ '#' ∉ rest := by
  unfold schemeSplit at h
  split at h
  · next c tail rest2 heq1 heq2 =>
      split at h
      · simp only [Option.some.injEq, Prod.mk.injEq] at h
        obtain ⟨h1, h2⟩ := h
        constructor
        · rw [← h1]
          exact noHash_takeWhile _ hb
        · rw [← h2]
          have hd : '#' ∉ body.drop (body.takeWhile isSchemeCh).length := noHash_drop _ hb
          rw [heq2] at hd
          exact noHash_of_cons hd
      · exact absurd h (by simp)
  · exact absurd h (by simp)

theorem parsePort_noHash {auth : List Char} {port : Option String}
    (ha : '#' ∉ auth) (h : parsePort auth = some port) :
    ∀ p, port = some p → strNoHash p := by
  unfold parsePort at h
  split at h
  · simp only [Option.some.injEq] at h
    subst h
    intro p hp
    simp at hp
  · next c ds heq =>
      split at h
      · simp only [Option.some.injEq] at h
        subst h
        intro p hp
        simp at hp
      · split at h
        · simp only [Option.some.injEq] at h
          subst h
          intro p hp
          simp only [Option.some.injEq] at hp
          subst hp
          show '#' ∉ ds
          have hd : '#' ∉ auth.dropWhile (· ≠ ':') := noHash_dropWhile _ ha
          rw [heq] at hd
          exact noHash_of_cons hd
        · exact absurd h (by simp)

theorem parseAbsolute_noHash {sch rest : List Char} {fr : Option String} {u : URLRec}
    (hs : '#' ∉ sch) (hr : '#' ∉ rest)
    (h : parseAbsolute sch rest fr = some u) : u.componentsNoHash := by
  unfold parseAbsolute at h
  split at h
  · next after =>
      have hafter : '#' ∉ after := noHash_of_cons (noHash_of_cons hr)
      have hauth : '#' ∉ authOf after := noHash_takeWhile _ hafter
      have htail : '#' ∉ authTail after := noHash_dropWhile _ hafter
      split at h
      · exact absurd h (by simp)
      · split at h
        · exact absurd h (by simp)
        · next port hport =>
            simp only [Option.some.injEq] at h
            subst h
            obtain ⟨hq1, hq2⟩ := splitQuery_noHash htail
            refine ⟨hs, noHash_takeWhile _ hauth, parsePort_noHash hauth hport, ?_, hq2⟩
            unfold strNoHash
            split
            · intro hm
              simp [chars] at hm
            · exact hq1
  · simp only [Option.some.injEq] at h
    subst h
    obtain ⟨hq1, hq2⟩ := splitQuery_noHash hr
    exact ⟨hs, by simp [strNoHash, chars], by simp, hq1, hq2⟩

theorem noHash_dirOf {s : String} (h : strNoHash s) : '#' ∉ chars (dirOf s) := by
  unfold dirOf
  intro hm
  simp only [chars, List.mem_reverse] at hm
  have := (List.dropWhile_sublist (· ≠ '/')).subset hm
  rw [List.mem_reverse] at this
  exact h this

theorem parseURLCore_noHash {body : List Char} {fr : Option String}
    {base : Option URLRec} {u : URLRec}
    (hbody : '#' ∉ body) (hb : ∀ b, base = some b → b.componentsNoHash)
    (h : parseURLCore body fr base = some u) : u.componentsNoHash := by
  unfold parseURLCore at h
  split at h
  · next sch rest heq =>
      obtain ⟨h1, h2⟩ := schemeSplit_noHash hbody heq
      exact parseAbsolute_noHash h1 h2 h
  · split at h
    · exact absurd h (by simp)
    · next b =>
        have hbc : b.componentsNoHash := hb b rfl
        obtain ⟨hb1, hb2, hb3, hb4, hb5⟩ := hbc
        split at h
        · exact absurd h (by simp)
        · split at h
          · simp only [Option.some.injEq] at h
            subst h
            exact ⟨hb1, hb2, hb3, hb4, hb5⟩
          · exact parseAbsolute_noHash hb1 hbody h
          · simp only [Option.some.injEq] at h
            subst h
            obtain ⟨hq1, hq2⟩ := splitQuery_noHash hbody
            exact ⟨hb1, hb2, hb3, hq1, hq2⟩
          · simp only [Option.some.injEq] at h
            subst h
            obtain ⟨hq1, hq2⟩ := splitQuery_noHash hbody
            refine ⟨hb1, hb2, hb3, ?_, hq2⟩
            show '#' ∉ chars (dirOf b.path ++ _)
            rw [chars, String.data_append]
            intro hm
            rcases List.mem_append.mp hm with hm | hm
            · exact noHash_dirOf hb4 hm
            · exact hq1 hm

theorem parseURL_noHash {input : String} {base : Option URLRec} {u : URLRec}
    (hb : ∀ b, base = some b → b.componentsNoHash)
    (h : parseURL input base = some u) : u.componentsNoHash :=
  parseURLCore_noHash (noHash_body _) hb h

theorem noHash_append {s t : String} (hs : '#' ∉ chars s) (ht : '#' ∉ chars t) :
    '#' ∉ chars (s ++ t) := by
  rw [chars, String.data_append]
  intro hm
  rcases List.mem_append.mp hm with hm | hm
  · exact hs hm
  · exact ht hm

theorem clearHash_href_noHash {u : URLRec} (h : u.componentsNoHash) :
    '#' ∉ chars u.clearHash.href := by
  obtain ⟨sc, ho, po, pa, qu, ha, op⟩ := u
  obtain ⟨h1, h2, h3, h4, h5⟩ := h
  have hopt : '#' ∉ chars (optSer "?" qu) := by
    cases qu with
    | none => simp [optSer, chars]
    | some q =>
        show '#' ∉ chars ("?" ++ q)
        exact noHash_append (by decide) (h5 q rfl)
  have hport : '#' ∉ chars (portSer po) := by
    cases po with
    | none => simp [portSer, chars]
    | some p =>
        show '#' ∉ chars (":" ++ p)
        exact noHash_append (by decide) (h3 p rfl)
  cases op with
  | true =>
      show '#' ∉ chars (sc ++ ":" ++ pa ++ optSer "?" qu ++ optSer "#" none)
      exact noHash_append
        (noHash_append (noHash_append (noHash_append h1 (by decide)) h4) hopt)
        (by decide)
  | false =>
      show '#' ∉ chars (sc ++ "://" ++ ho ++ portSer po ++ pa
        ++ optSer "?" qu ++ optSer "#" none)
      exact noHash_append
        (noHash_append
          (noHash_append
            (noHash_append (noHash_append (noHash_append h1 (by decide)) h2) hport)
            h4)
          hopt)
        (by decide)

/-! ### Link extractor properties -/

theorem menuLinkStep_fold_inv (su : URLRec) (crawledUrls : List String)
    (hsuNH : su.componentsNoHash) (anchors : List ElemH) (links : List String)
    (hnd : links.Nodup)
    (hP : ∀ u ∈ links, u ∉ crawledUrls ∧ strStarts u su.origin = true ∧ '#' ∉ chars u) :
    (anchors.foldl (menuLinkStep su crawledUrls) links).Nodup ∧
      ∀ u ∈ anchors.foldl (menuLinkStep su crawledUrls) links,
        u ∉ crawledUrls ∧ strStarts u su.origin = true ∧ '#' ∉ chars u := by
  induction anchors generalizing links with
  | nil => exact ⟨hnd, hP⟩
  | cons a anchors ih =>
      rw [List.foldl_cons]
      have hstep : (menuLinkStep su crawledUrls links a).Nodup ∧
          ∀ u ∈ menuLinkStep su crawledUrls links a,
            u ∉ crawledUrls ∧ strStarts u su.origin = true ∧ '#' ∉ chars u := by
        unfold menuLinkStep
        split
        · exact ⟨hnd, hP⟩
        · next href heq =>
            split
            · exact ⟨hnd, hP⟩
            · split
              · exact ⟨hnd, hP⟩
              · next urlObject hpu =>
                  split
                  · next hcond =>
                      split
                      · exact ⟨hnd, hP⟩
                      · next hcont =>
                          have hclean : '#' ∉ chars urlObject.clearHash.href :=
                            clearHash_href_noHash
                              (parseURL_noHash
                                (by
                                  intro b hb
                                  injection hb with hb
                                  subst hb
                                  exact hsuNH) hpu)
                          obtain ⟨hstart, hnc⟩ := Bool.and_eq_true_iff.mp hcond
                          have hncl : urlObject.clearHash.href ∉ crawledUrls := by
                            simp only [Bool.not_eq_true'] at hnc
                            simpa using hnc
                          have hnotmem : urlObject.clearHash.href ∉ links := by
                            simpa using hcont
                          constructor
                          · simp [List.nodup_append, hnd, hnotmem]
                          · intro u hu
                            rcases List.mem_append.mp hu with hu | hu
                            · exact hP u hu
                            · have : u = urlObject.clearHash.href := by simpa using hu
                              subst this
                              exact ⟨hncl, hstart, hclean⟩
                  · exact ⟨hnd, hP⟩
      exact ih _ hstep.1 hstep.2

/-- C6 (amended): for every page, start URL and already-seen set, the
link extractor returns no duplicates, no URL in the already-seen set (in
particular never the start URL itself, which is seeded into that set),
only URLs whose SERIALIZATION STARTS WITH the start page's origin string
(the source tests `cleanUrl.startsWith(siteOrigin)`, not origin
equality), and no URL containing a fragment (fragments are stripped
before use, so no fragment-only variants can occur). -/
theorem findMenuLinks_dedup_spec (doc : Doc) (startUrl : String)
    (crawledUrls : List String) (res : List String)
    (h : findMenuLinks doc startUrl crawledUrls = some res) :
    res.Nodup ∧ ∀ u ∈ res, u ∉ crawledUrls ∧
      strStarts u (((parseURL startUrl none).map URLRec.origin).getD "") = true ∧
      '#' ∉ chars u := by
  unfold findMenuLinks at h
  cases hsu : parseURL startUrl none with
  | none =>
      rw [hsu] at h
      exact absurd h (by simp)
  | some su =>
      rw [hsu] at h
      simp only [Option.some.injEq] at h
      subst h
      have hsuNH : su.componentsNoHash := parseURL_noHash (by intro b hb; simp at hb) hsu
      simp only [Option.map_some', Option.getD_some]
      exact menuLinkStep_fold_inv su crawledUrls hsuNH (qsaDoc doc navLinkSelectors) []
        (by simp) (by simp)

/-- C6 witness: on the fixture document the single returned URL is
duplicate-free, unseen, starts with the origin string and carries no
fragment. -/
theorem findMenuLinks_dedup_spec_witness :
    (["https://example.com:8080/page"] : List String).Nodup ∧
      ∀ u ∈ (["https://example.com:8080/page"] : List String),
        u ∉ (["https://example.com/"] : List String) ∧
          strStarts u
            (((parseURL "https://example.com/" none).map URLRec.origin).getD "") = true ∧
          '#' ∉ chars u :=
  findMenuLinks_dedup_spec docPort "https://example.com/" ["https://example.com/"]
    ["https://example.com:8080/page"] (by decide)

theorem qsaGo_elem_mem (sels : List ComplexSel) (anc : List (String × AttrList))
    (t : String) (a : AttrList) (c sib : Node) (e : ElemH) :
    e ∈ qsaGo sels anc (.elem t a c sib) ↔
      ((sels.any (complexHolds anc t a) = true ∧ e = ⟨t, a, c⟩)
        ∨ e ∈ qsaGo sels (anc ++ [(t, a)]) c ∨ e ∈ qsaGo sels anc sib) := by
  show e ∈ (if sels.any (complexHolds anc t a) then [(⟨t, a, c⟩ : ElemH)] else [])
      ++ qsaGo sels (anc ++ [(t, a)]) c ++ qsaGo sels anc sib ↔ _
  by_cases hcond : sels.any (complexHolds anc t a) = true
  · simp [hcond]
  · simp [hcond]

theorem qsaGo_mem_iff (sels : List ComplexSel) (e : ElemH) :
    ∀ (n : Node) (anc : List (String × AttrList)),
      e ∈ qsaGo sels anc n ↔ ∃ s ∈ sels, e ∈ qsaGo [s] anc n := by
  intro n
  induction n with
  | nil =>
      intro anc
      simp [qsaGo]
  | text str sib ih =>
      intro anc
      simpa [qsaGo] using ih anc
  | elem t a c sib ihc ihs =>
      intro anc
      rw [qsaGo_elem_mem]
      constructor
      · rintro (⟨hany, rfl⟩ | hm | hm)
        · obtain ⟨s, hs, hmatch⟩ := List.any_eq_true.mp hany
          exact ⟨s, hs, (qsaGo_elem_mem [s] anc t a c sib _).mpr
            (Or.inl ⟨by simp [hmatch], rfl⟩)⟩
        · obtain ⟨s, hs, hm2⟩ := (ihc (anc ++ [(t, a)])).mp hm
          exact ⟨s, hs, (qsaGo_elem_mem [s] anc t a c sib e).mpr (Or.inr (Or.inl hm2))⟩
        · obtain ⟨s, hs, hm2⟩ := (ihs anc).mp hm
          exact ⟨s, hs, (qsaGo_elem_mem [s] anc t a c sib e).mpr (Or.inr (Or.inr hm2))⟩
      · rintro ⟨s, hs, hm⟩
        rcases (qsaGo_elem_mem [s] anc t a c sib e).mp hm with ⟨hany, rfl⟩ | hm2 | hm2
        · refine Or.inl ⟨?_, rfl⟩
          have hmatch : complexHolds anc t a s = true := by simpa using hany
          exact List.any_eq_true.mpr ⟨s, hs, hmatch⟩
        · exact Or.inr (Or.inl ((ihc (anc ++ [(t, a)])).mpr ⟨s, hs, hm2⟩))
        · exact Or.inr (Or.inr ((ihs anc).mpr ⟨s, hs, hm2⟩))

/-- C7 (amended): the navigation selectors form a single comma group
evaluated as a union — an element is collected exactly when it matches at
least one of the five selectors, regardless of whether a more specific
selector also has matches; no tier is ever skipped. -/
theorem navSelectors_union_semantics (doc : Doc) (e : ElemH) :
    e ∈ qsaDoc doc navLinkSelectors ↔
      (e ∈ qsaDoc doc [selNavA] ∨ e ∈ qsaDoc doc [selIdNavA]
        ∨ e ∈ qsaDoc doc [selIdMenuA] ∨ e ∈ qsaDoc doc [selClsNavA]
        ∨ e ∈ qsaDoc doc [selClsMenuA]) := by
  unfold qsaDoc
  rw [qsaGo_mem_iff]
  constructor
  · rintro ⟨s, hs, hm⟩
    simp only [navLinkSelectors, List.mem_cons, List.not_mem_nil, or_false] at hs
    rcases hs with rfl | rfl | rfl | rfl | rfl
    · exact Or.inl hm
    · exact Or.inr (Or.inl hm)
    · exact Or.inr (Or.inr (Or.inl hm))
    · exact Or.inr (Or.inr (Or.inr (Or.inl hm)))
    · exact Or.inr (Or.inr (Or.inr (Or.inr hm)))
  · rintro (hm | hm | hm | hm | hm)
    · exact ⟨selNavA, by simp [navLinkSelectors], hm⟩
    · exact ⟨selIdNavA, by simp [navLinkSelectors], hm⟩
    · exact ⟨selIdMenuA, by simp [navLinkSelectors], hm⟩
    · exact ⟨selClsNavA, by simp [navLinkSelectors], hm⟩
    · exact ⟨selClsMenuA, by simp [navLinkSelectors], hm⟩

end GEO
